import Mathlib

/-!
Verification development for the fp-toolkit library (src/Result.ts and
src/Async.ts), as a shallow embedding in Lean 4.

Modelling conventions:
* A TypeScript tagged union becomes a Lean inductive type.
* A JS value passed where either a raw replacement value or a handler
  function is accepted (the `ResultMatcher` cases) is embedded as a
  `CaseHandler`: the runtime `typeof caseFn !== "function"` test of
  `isRawValue` corresponds exactly to the constructor tag.
* A JS function that may throw becomes `Unit → Except JsValue α`, where
  `JsValue` is a small universe of dynamic values rich enough to express
  the `instanceof Error` test and `String(...)` coercion used by
  `tryCatch`.
-/

/-- Dynamic JS values thrown by functions: an `Error` instance carrying a
message, a string primitive, or a number primitive. -/
inductive JsValue where
  | error (message : String)
  | str (s : String)
  | num (n : Int)
deriving DecidableEq, Repr

/-- The `err instanceof Error` test from `tryCatch`'s `toError` helper. -/
def instanceOfError : JsValue → Bool
  | .error _ => true
  | .str _ => false
  | .num _ => false

/-- The JS `String(...)` coercion, restricted to the modelled universe. -/
def jsString : JsValue → String
  | .error m => "Error: " ++ m
  | .str s => s
  | .num n => toString n

/-- The `toError` helper inside `tryCatch`:
`err instanceof Error ? err : Error(String(err))`. -/
def toError (err : JsValue) : JsValue :=
  if instanceOfError err then err else .error (jsString err)

/-- The `Result<A, E>` tagged union: `Ok` holds an `ok` payload, `Err`
holds an `err` payload. -/
inductive Result (α ε : Type) where
  | Ok (ok : α)
  | Err (err : ε)
deriving DecidableEq, Repr

namespace Result

/-- A matcher case: either a plain replacement value or a handler function,
as distinguished at runtime by `isRawValue`'s `typeof` test. A JS function
value is `.fn`; any other JS value is `.raw`. -/
inductive CaseHandler (τ ρ : Type) where
  | raw (r : ρ)
  | fn (f : τ → ρ)

/-- The `isRawValue` runtime test: `typeof caseFn !== "function"`. -/
def isRawValue {τ ρ : Type} : CaseHandler τ ρ → Bool
  | .raw _ => true
  | .fn _ => false

/-- The `getMatcherResult` helper: return a raw case unchanged, invoke a
function case with the payload. -/
def getMatcherResult {τ ρ : Type} (c : CaseHandler τ ρ) (arg : τ) : ρ :=
  match c with
  | .raw r => r
  | .fn f => f arg

/-- The `ResultMatcher<A, E, R>` interface: one case per variant. -/
structure ResultMatcher (α ε ρ : Type) where
  ok : CaseHandler α ρ
  err : CaseHandler ε ρ

/-- The `match` combinator: dispatch on the `_tag` discriminant and apply
`getMatcherResult` to the present variant's case and payload. -/
def match' {α ε ρ : Type} (matcher : ResultMatcher α ε ρ) : Result α ε → ρ
  | .Ok a => getMatcherResult matcher.ok a
  | .Err e => getMatcherResult matcher.err e

/-- The `map` combinator: `match({ ok: a => Ok(f(a)), err: e => Err(e) })`. -/
def map {α ε β : Type} (f : α → β) : Result α ε → Result β ε :=
  match' ⟨.fn (fun a => .Ok (f a)), .fn (fun e => .Err e)⟩

/-- The `mapErr` combinator: `match({ ok: a => Ok(a), err: e => Err(f(e)) })`. -/
def mapErr {α εa εb : Type} (f : εa → εb) : Result α εa → Result α εb :=
  match' ⟨.fn (fun a => .Ok a), .fn (fun e => .Err (f e))⟩

/-- The `bind` combinator: `match({ ok: f, err: e => Err(e) })`. -/
def bind {α ε β : Type} (f : α → Result β ε) : Result α ε → Result β ε :=
  match' ⟨.fn f, .fn (fun e => .Err e)⟩

/-- The `defaultValue` combinator: `match({ ok: a => a, err: a })`, where
the default `a` is passed as the err case verbatim, so its runtime
classification (raw value versus invocable handler) is whatever `typeof`
says about the caller's value. -/
def defaultValue {α ε : Type} (a : CaseHandler ε α) : Result α ε → α :=
  match' ⟨.fn (fun x => x), a⟩

/-- The `isOk` type guard: `_tag === "Ok"`. -/
def isOk {α ε : Type} : Result α ε → Bool
  | .Ok _ => true
  | .Err _ => false

/-- The `isErr` type guard: `_tag === "Err"`. -/
def isErr {α ε : Type} : Result α ε → Bool
  | .Ok _ => false
  | .Err _ => true

/-- The `map2` combinator over a pair of `Result`s sharing error type `ε`,
translated branch by branch from the source's `if`/`else if`/`else`. -/
def map2 {α β γ ε : Type} (f : α → β → γ)
    (results : Result α ε × Result β ε) : Result γ ε :=
  match results.1, results.2 with
  | .Ok a, .Ok b => .Ok (f a b)
  | .Err e, _ => .Err e
  | .Ok _, .Err e => .Err e

/-- The `map3` combinator over a triple of `Result`s sharing error type
`ε`, translated branch by branch from the source. -/
def map3 {α β γ δ ε : Type} (f : α → β → γ → δ)
    (results : Result α ε × Result β ε × Result γ ε) : Result δ ε :=
  match results.1, results.2.1, results.2.2 with
  | .Ok a, .Ok b, .Ok c => .Ok (f a b c)
  | .Err e, _, _ => .Err e
  | .Ok _, .Err e, _ => .Err e
  | .Ok _, .Ok _, .Err e => .Err e

/-- The no-`onThrow` overload of `tryCatch`: wrap a normal return in `Ok`;
wrap a thrown value in `Err` after normalizing with `toError`. -/
def tryCatch {α : Type} (mightThrow : Unit → Except JsValue α) :
    Result α JsValue :=
  match mightThrow () with
  | .ok a => .Ok a
  | .error err => .Err (toError err)

/-- The `onThrow` overload of `tryCatch`: wrap a normal return in `Ok`;
apply `onThrow` to a thrown value and wrap the outcome in `Err`. -/
def tryCatchWith {α ε : Type} (mightThrow : Unit → Except JsValue α)
    (onThrow : JsValue → ε) : Result α ε :=
  match mightThrow () with
  | .ok a => .Ok a
  | .error err => .Err (onThrow err)

end Result

/-!
The `Async` model.

An `Async<A>` in the source is a zero-argument producer `() => Promise<A>`.
The host promise substrate is embedded as the timed computation type `P`:
a function from the (logical, millisecond) time at which the computation
starts to an `Outcome` — the settled result (fulfilled value or rejection
reason), the time at which the promise settles, and the timestamped log of
side effects observed while it ran. `await`/`.then` chaining is `P.bind`;
`setTimeout` advances the clock. The event type `ε` and the rejection
reason type `ρ` are parameters.
-/

/-- The settled state of a host promise: result (fulfilled or rejected),
settle time, and the timestamped side-effect log produced while running. -/
structure Outcome (ε ρ α : Type) where
  result : Except ρ α
  finish : Nat
  log : List (Nat × ε)

/-- A host promise-returning computation, as a function of its start time. -/
def P (ε ρ α : Type) : Type := Nat → Outcome ε ρ α

/-- An already-fulfilled promise: `Promise.resolve(a)` — settles
immediately, no side effects. -/
def P.pure {ε ρ α : Type} (a : α) : P ε ρ α := fun t => ⟨.ok a, t, []⟩

/-- Promise chaining (`.then` / `await`): run `m`; on fulfilment run `f`
on the value from `m`'s settle time; on rejection propagate the reason. -/
def P.bind {ε ρ α β : Type} (m : P ε ρ α) (f : α → P ε ρ β) : P ε ρ β :=
  fun t =>
    match m t with
    | ⟨.error e, t1, l1⟩ => ⟨.error e, t1, l1⟩
    | ⟨.ok a, t1, l1⟩ =>
      let o := f a t1
      ⟨o.result, o.finish, l1 ++ o.log⟩

/-- A side-effecting callback invocation: records one event at the current
time and returns immediately. -/
def P.emit {ε ρ : Type} (e : ε) : P ε ρ Unit := fun t => ⟨.ok (), t, [(t, e)]⟩

/-- The host `new Promise(resolve => setTimeout(resolve, d))`: settles `d`
time units after it starts, no side effects. -/
def P.setTimeout {ε ρ : Type} (d : Nat) : P ε ρ Unit :=
  fun t => ⟨.ok (), t + d, []⟩

/-- The `Async<A>` type: a zero-argument producer of a host promise. -/
def Async (ε ρ α : Type) : Type := Unit → P ε ρ α

namespace Async

/-- The `of` constructor: `(a) => () => Promise.resolve(a)`. -/
def of {ε ρ α : Type} (a : α) : Async ε ρ α := fun _ => P.pure a

/-- The `map` combinator: `(f) => (async) => () => async().then(f)`. -/
def map {ε ρ α β : Type} (f : α → β) (async : Async ε ρ α) : Async ε ρ β :=
  fun _ => P.bind (async ()) (fun a => P.pure (f a))

/-- The `bind` combinator:
`(f) => (async) => () => async().then(a => f(a)())`. -/
def bind {ε ρ α β : Type} (f : α → Async ε ρ β) (async : Async ε ρ α) :
    Async ε ρ β :=
  fun _ => P.bind (async ()) (fun a => f a ())

/-- The `flatten` combinator: `(async) => () => async().then(inner => inner())`. -/
def flatten {ε ρ α : Type} (async : Async ε ρ (Async ε ρ α)) : Async ε ρ α :=
  fun _ => P.bind (async ()) (fun inner => inner ())

/-- The delay normalization from `delay`'s body:
`delayInMilliseconds <= 0 ? 0 : Math.floor(delayInMilliseconds)`.
The JS `number` argument is modelled as a rational. -/
def normalizeDelay (delayInMilliseconds : ℚ) : Nat :=
  if delayInMilliseconds ≤ 0 then 0 else (Int.floor delayInMilliseconds).toNat

/-- The `delay` combinator: await a `setTimeout` promise for the
normalized duration, then start and await the wrapped producer. -/
def delay {ε ρ α : Type} (delayInMilliseconds : ℚ) (async : Async ε ρ α) :
    Async ε ρ α :=
  fun _ =>
    P.bind (P.setTimeout (normalizeDelay delayInMilliseconds))
      (fun _ => async ())

/-- The `start` operation: invoke the producer. -/
def start {ε ρ α : Type} (async : Async ε ρ α) : P ε ρ α := async ()

/-- The `ofPromise` adapter: wrap an existing promise reference. -/
def ofPromise {ε ρ α : Type} (promise : P ε ρ α) : Async ε ρ α :=
  fun _ => promise

/-- The `tee` combinator: await the producer, invoke the side-effecting
callback on the value, pass the value through. The callback's side effect
is modelled as the event it emits, computed from the value. -/
def tee {ε ρ α : Type} (f : α → ε) (async : Async ε ρ α) : Async ε ρ α :=
  fun _ =>
    P.bind (async ()) (fun a => P.bind (P.emit (f a)) (fun _ => P.pure a))

/-- The body of `sequential`'s `for` loop: invoke and await each producer
in list order, pushing each result onto the results array. -/
def seqLoop {ε ρ α : Type} : List (Async ε ρ α) → P ε ρ (List α)
  | [] => P.pure []
  | x :: xs =>
    P.bind (x ()) (fun a => P.bind (seqLoop xs) (fun as => P.pure (a :: as)))

/-- The `sequential` combinator: one `Async` representing the in-series
execution of the given producers. -/
def sequential {ε ρ α : Type} (asyncs : List (Async ε ρ α)) :
    Async ε ρ (List α) :=
  fun _ => seqLoop asyncs

/-- The earliest rejection among a list of settled outcomes, with its
settle time: `Promise.all` rejects with the reason of the first promise
(in time) to reject; positional order breaks ties. -/
def earliestRejection {ε ρ α : Type} :
    List (Outcome ε ρ α) → Option (ρ × Nat)
  | [] => none
  | o :: os =>
    match o.result, earliestRejection os with
    | .error e, none => some (e, o.finish)
    | .error e, some (e2, t2) =>
      if o.finish ≤ t2 then some (e, o.finish) else some (e2, t2)
    | .ok _, r => r

/-- Timestamp-ordered insertion, keeping earlier-inserted events first
among equal timestamps. -/
def insertByTime {ε : Type} (x : Nat × ε) :
    List (Nat × ε) → List (Nat × ε)
  | [] => [x]
  | y :: ys => if y.1 ≤ x.1 then y :: insertByTime x ys else x :: y :: ys

/-- Sort a side-effect log by timestamp (stable). -/
def sortByTime {ε : Type} : List (Nat × ε) → List (Nat × ε)
  | [] => []
  | x :: xs => insertByTime x (sortByTime xs)

/-- The host `Promise.all`: every promise starts at the same time; on
success the fulfilled values appear in positional order and the combined
promise settles when the last one does; a rejection settles the combined
promise with the earliest rejection reason. Side effects of all branches
occur in timestamp order (rejection does not cancel in-flight work). -/
def promiseAll {ε ρ α : Type} (ps : List (P ε ρ α)) : P ε ρ (List α) :=
  fun t =>
    let outs := ps.map (fun p => p t)
    match earliestRejection outs with
    | some (e, te) =>
      ⟨.error e, te, sortByTime (outs.map Outcome.log).flatten⟩
    | none =>
      ⟨.ok (outs.filterMap (fun o => o.result.toOption)),
        (outs.map Outcome.finish).foldl Nat.max t,
        sortByTime (outs.map Outcome.log).flatten⟩

/-- The `parallel` combinator: `() => Promise.all(asyncs.map(start))`. -/
def parallel {ε ρ α : Type} (asyncs : List (Async ε ρ α)) :
    Async ε ρ (List α) :=
  fun _ => promiseAll (asyncs.map start)

end Async

/-!
Claim theorems about `Result`.
-/

/-- C5: `map2` (and likewise `map3`) returns `Ok` of the combining
function applied to the payloads when all tuple elements are `Ok`, and
otherwise returns the first `Err` in positional order, ignoring any later
`Err`s; in particular `map2 f (Err x, Err y) = Err x`. -/
theorem c5_map2_map3_first_error {α β γ δ ε : Type}
    (f : α → β → γ) (g : α → β → γ → δ)
    (a : α) (b : β) (c : γ) (x y z : ε) :
    Result.map2 f (.Ok a, .Ok b) = (.Ok (f a b) : Result γ ε)
    ∧ (∀ r : Result β ε, Result.map2 f (.Err x, r) = .Err x)
    ∧ Result.map2 f ((.Ok a : Result α ε), .Err y) = .Err y
    ∧ Result.map2 f ((.Err x : Result α ε), (.Err y : Result β ε)) = .Err x
    ∧ Result.map3 g (.Ok a, .Ok b, .Ok c) = (.Ok (g a b c) : Result δ ε)
    ∧ (∀ (r2 : Result β ε) (r3 : Result γ ε),
        Result.map3 g (.Err x, r2, r3) = .Err x)
    ∧ (∀ r3 : Result γ ε, Result.map3 g (.Ok a, .Err y, r3) = .Err y)
    ∧ Result.map3 g (.Ok a, .Ok b, (.Err z : Result γ ε)) = .Err z := by
  refine ⟨rfl, ?_, rfl, rfl, rfl, ?_, ?_, rfl⟩
  · intro r; cases r <;> rfl
  · intro r2 r3; cases r2 <;> cases r3 <;> rfl
  · intro r3; cases r3 <;> rfl

/-- C6: `map f` and `bind f` on `Err e` yield `Err e` for every `f`
(the result does not depend on `f`, so the success-path function is never
invoked), and `mapErr h` on `Ok a` yields `Ok a` with the same payload for
every `h` — a represented failure is never swallowed. -/
theorem c6_err_propagation {α β ε ε2 : Type}
    (e : ε) (a : α) (f : α → Result β ε) (g : α → β) (h : ε → ε2) :
    Result.map g (.Err e) = (.Err e : Result β ε)
    ∧ Result.bind f (.Err e) = (.Err e : Result β ε)
    ∧ Result.mapErr h (.Ok a) = (.Ok a : Result α ε2) :=
  ⟨rfl, rfl, rfl⟩

/-- C8: `bind` is associative on successes: for every `a`, `f`, `g`,
binding `g` after binding `f` over `Ok a` equals binding the composed
continuation over `Ok a`. -/
theorem c8_bind_assoc {α β γ ε : Type}
    (a : α) (f : α → Result β ε) (g : β → Result γ ε) :
    Result.bind g (Result.bind f (.Ok a))
      = Result.bind (fun a2 => Result.bind g (f a2)) (.Ok a) := rfl

/-- C10: `defaultValue` distinguishes raw values from handlers by the
runtime function test: a function-classified default `f` is not returned
as the default on `Err e` — it is invoked with `e` and its return value is
produced — while a non-function default is returned verbatim. -/
theorem c10_defaultValue_function_default {α ε : Type}
    (f : ε → α) (a : α) (e : ε) :
    Result.isRawValue (Result.CaseHandler.fn f) = false
    ∧ Result.defaultValue (.fn f) (.Err e) = f e
    ∧ Result.isRawValue (Result.CaseHandler.raw a : Result.CaseHandler ε α) = true
    ∧ Result.defaultValue (.raw a) (.Err e) = a :=
  ⟨rfl, rfl, rfl, rfl⟩

/-- C7: `tryCatch` returns `Ok` of the value when `mightThrow` returns
normally; when it throws, the `onThrow` overload wraps the transformed
thrown value in `Err`, and the plain overload wraps the thrown value
itself when it is an `Error` instance, or a new `Error` whose message is
the stringified thrown value otherwise. -/
theorem c7_tryCatch_normalizes {α ε : Type}
    (mightThrow : Unit → Except JsValue α) (onThrow : JsValue → ε) :
    (∀ a, mightThrow () = .ok a →
      Result.tryCatch mightThrow = .Ok a
      ∧ Result.tryCatchWith mightThrow onThrow = .Ok a)
    ∧ (∀ v, mightThrow () = .error v →
      Result.tryCatchWith mightThrow onThrow = .Err (onThrow v)
      ∧ (instanceOfError v = true → Result.tryCatch mightThrow = .Err v)
      ∧ (instanceOfError v = false →
          Result.tryCatch mightThrow = .Err (.error (jsString v)))) := by
  constructor
  · intro a ha
    constructor <;> simp [Result.tryCatch, Result.tryCatchWith, ha]
  · intro v hv
    refine ⟨?_, ?_, ?_⟩
    · simp [Result.tryCatchWith, hv]
    · intro hi; simp [Result.tryCatch, hv, toError, hi]
    · intro hi; simp [Result.tryCatch, hv, toError, hi]

/-- Witness for C7: `tryCatch(() => { throw "boom" })` yields `Err`
wrapping an `Error` whose message is `"boom"`. -/
theorem c7_tryCatch_normalizes_witness :
    Result.tryCatch (fun _ => (.error (.str "boom") : Except JsValue Nat))
      = .Err (.error "boom") :=
  ((c7_tryCatch_normalizes (fun _ => (.error (.str "boom") : Except JsValue Nat))
    (fun v => v)).2 (.str "boom") rfl).2.2 rfl

/-!
Claim theorems about `Async` construction and `delay`.
-/

/-- Construction of `of(a)`, viewed as a host computation: the body of
`of` only builds and returns the closure `() => Promise.resolve(a)` —
it awaits no promise and invokes no callback. -/
def constructOf {ε ρ α : Type} (a : α) : P ε ρ (Async ε ρ α) :=
  P.pure (Async.of a)

/-- Construction of `map(f)(async)`, viewed as a host computation: the
body only builds and returns the closure `() => async().then(f)`. -/
def constructMap {ε ρ α β : Type} (f : α → β) (async : Async ε ρ α) :
    P ε ρ (Async ε ρ β) :=
  P.pure (Async.map f async)

/-- Construction of `bind(f)(async)`, viewed as a host computation: the
body only builds and returns the closure `() => async().then(a => f(a)())`. -/
def constructBind {ε ρ α β : Type} (f : α → Async ε ρ β)
    (async : Async ε ρ α) : P ε ρ (Async ε ρ β) :=
  P.pure (Async.bind f async)

/-- Construction of `delay(ms)(async)`, viewed as a host computation: the
body only builds and returns the delaying closure; the `setTimeout` call
sits inside that closure. -/
def constructDelay {ε ρ α : Type} (ms : ℚ) (async : Async ε ρ α) :
    P ε ρ (Async ε ρ α) :=
  P.pure (Async.delay ms async)

/-- C1: constructing an `Async` performs no work: building a producer by
`of`, `map`, `bind`, or `delay` settles immediately (finish time equals
the current time), records no side effect in the log, and yields the
producer itself — so constructing and never starting triggers zero side
effects. -/
theorem c1_construction_performs_no_work {ε ρ α β : Type} (a : α)
    (f : α → β) (g : α → Async ε ρ β) (ms : ℚ) (x : Async ε ρ α) (t : Nat) :
    (@constructOf ε ρ α a) t = ⟨.ok (Async.of a), t, []⟩
    ∧ constructMap f x t = ⟨.ok (Async.map f x), t, []⟩
    ∧ constructBind g x t = ⟨.ok (Async.bind g x), t, []⟩
    ∧ constructDelay ms x t = ⟨.ok (Async.delay ms x), t, []⟩ :=
  ⟨rfl, rfl, rfl, rfl⟩

/-- C4: `delay(ms)` pauses for exactly `max(0, floor(ms))` time units
before the wrapped producer begins — negative inputs are clamped to zero
and fractional inputs floored, never rejected — and `delay(-5)` builds the
same producer as `delay(0)`. -/
theorem c4_delay_normalization {ε ρ α : Type} (ms : ℚ) (x : Async ε ρ α)
    (t : Nat) :
    (Async.normalizeDelay ms : ℤ) = max 0 (Int.floor ms)
    ∧ Async.delay ms x () t = x () (t + Async.normalizeDelay ms)
    ∧ Async.delay (-5) x = Async.delay 0 x := by
  refine ⟨?_, rfl, ?_⟩
  · unfold Async.normalizeDelay
    by_cases h : ms ≤ 0
    · have hf : (⌊ms⌋ : ℤ) ≤ 0 := Int.floor_nonpos h
      rw [if_pos h]
      omega
    · have h0 : (0 : ℚ) < ms := lt_of_not_le h
      have hf : (0 : ℤ) ≤ ⌊ms⌋ := Int.floor_nonneg.mpr (le_of_lt h0)
      rw [if_neg h]
      omega
  · have hn : Async.normalizeDelay (-5) = Async.normalizeDelay 0 := by
      norm_num [Async.normalizeDelay]
    funext u
    show P.bind (P.setTimeout (Async.normalizeDelay (-5))) (fun _ => x ())
      = P.bind (P.setTimeout (Async.normalizeDelay 0)) (fun _ => x ())
    rw [hn]

/-!
Claim theorems about `sequential`, `parallel`, and rejection propagation.
-/

/-- Specification-side description of in-series execution, following the
spec's words for `sequential`: start each producer one at a time in list
order — the next producer is invoked at exactly the time the previous
one's promise resolved, so its side effects come after — awaiting each,
and collect the results in input order; a rejection settles the whole
computation with that reason. -/
def specSequential {ε ρ α : Type} : List (Async ε ρ α) → P ε ρ (List α)
  | [] => fun t => ⟨.ok [], t, []⟩
  | x :: xs => fun t =>
    let o := x () t
    match o.result with
    | .error e => ⟨.error e, o.finish, o.log⟩
    | .ok a =>
      let rest := specSequential xs o.finish
      ⟨rest.result.map (fun as => a :: as), rest.finish, o.log ++ rest.log⟩

/-- C2: once started, `sequential` invokes each producer strictly one at
a time in list order — producer `i + 1` is not invoked until producer
`i`'s promise has resolved (it starts at that resolve time, and its
logged side effects follow) — and yields the results in exactly the
input order, as described by `specSequential`. -/
theorem c2_sequential_in_order {ε ρ α : Type} (asyncs : List (Async ε ρ α)) :
    Async.start (Async.sequential asyncs) = specSequential asyncs := by
  funext t
  induction asyncs generalizing t with
  | nil => rfl
  | cons x xs ih =>
    show Async.seqLoop (x :: xs) t = specSequential (x :: xs) t
    simp only [Async.seqLoop, specSequential, P.bind]
    rcases hx : x () t with ⟨rx, t1, l1⟩
    cases rx with
    | error e => rfl
    | ok a =>
      have ih1 : Async.seqLoop xs t1 = specSequential xs t1 := ih t1
      simp only [ih1]
      rcases hr : specSequential xs t1 with ⟨r2, t2, l2⟩
      cases r2 with
      | error e => rfl
      | ok as => simp [Except.map, P.pure]

/-- Helper: when every settled outcome in a list is a fulfilment, there is
no rejection to pick, and collecting the fulfilled values gives exactly
the values in positional order. -/
lemma parallel_allOk_aux {ε ρ α : Type} :
    ∀ (outs : List (Outcome ε ρ α)) (rs : List α),
      outs.map Outcome.result = rs.map Except.ok →
      Async.earliestRejection outs = none
      ∧ outs.filterMap (fun o => o.result.toOption) = rs := by
  intro outs
  induction outs with
  | nil =>
    intro rs h
    cases rs with
    | nil => exact ⟨rfl, rfl⟩
    | cons r rs => simp at h
  | cons o os ih =>
    intro rs h
    cases rs with
    | nil => simp at h
    | cons r rs =>
      simp only [List.map_cons, List.cons.injEq] at h
      obtain ⟨h1, h2⟩ := h
      obtain ⟨hn, hf⟩ := ih rs h2
      refine ⟨?_, ?_⟩
      · simp [Async.earliestRejection, h1, hn]
      · rw [List.filterMap_cons, h1]
        exact congrArg (fun l => r :: l) hf

/-- C3: for producers that all succeed, `parallel`, once started, yields
the result list in the input list's positional order — the result at
index `i` is producer `i`'s value — regardless of the order in which the
producers complete (nothing constrains the producers' finish times). -/
theorem c3_parallel_positional_order {ε ρ α : Type}
    (asyncs : List (Async ε ρ α)) (t : Nat) (rs : List α)
    (h : asyncs.map (fun x => (x () t).result) = rs.map Except.ok) :
    ((Async.parallel asyncs) () t).result = .ok rs := by
  have hmap : ((asyncs.map Async.start).map (fun p => p t)).map Outcome.result
      = rs.map Except.ok := by
    simpa [List.map_map, Function.comp, Async.start] using h
  obtain ⟨hn, hf⟩ := parallel_allOk_aux _ rs hmap
  show (Async.promiseAll (asyncs.map Async.start) t).result = _
  simp only [Async.promiseAll]
  rw [hn]
  simp only [List.filterMap_map] at hf
  simpa [Function.comp] using hf

/-- Helper evaluation fact: a 50 ms delay normalizes to 50. -/
lemma normalizeDelay_fifty : Async.normalizeDelay 50 = 50 := by
  norm_num [Async.normalizeDelay]
  decide

/-- Helper evaluation fact: a 10 ms delay normalizes to 10. -/
lemma normalizeDelay_ten : Async.normalizeDelay 10 = 10 := by
  norm_num [Async.normalizeDelay]
  decide

/-- Witness for C3: with producer 1 delayed 50 ms and producer 2 delayed
10 ms, producer 2 completes strictly earlier, yet the started `parallel`
still yields `[1, 2]` in input order. -/
theorem c3_parallel_positional_order_witness :
    ((Async.parallel [Async.delay 50 (Async.of 1), Async.delay 10 (Async.of 2)]
        : Async Unit Unit (List Nat)) () 0).result = Except.ok [1, 2]
    ∧ ((Async.delay 10 (Async.of 2) : Async Unit Unit Nat) () 0).finish
        < ((Async.delay 50 (Async.of 1) : Async Unit Unit Nat) () 0).finish := by
  refine ⟨c3_parallel_positional_order _ 0 [1, 2] ?_, ?_⟩
  · simp [Async.delay, Async.of, P.bind, P.setTimeout, P.pure]
  · simp [Async.delay, Async.of, P.bind, P.setTimeout, P.pure,
      normalizeDelay_fifty, normalizeDelay_ten]

/-- Helper monad law: chaining after an already-fulfilled promise starts
the continuation immediately. -/
lemma P.pure_bind {ε ρ α β : Type} (a : α) (f : α → P ε ρ β) :
    P.bind (P.pure a) f = f a := rfl

/-- Helper monad law: awaiting a promise and returning its value is the
promise itself. -/
lemma P.bind_pure {ε ρ α : Type} (m : P ε ρ α) :
    P.bind m P.pure = m := by
  funext t
  rcases hm : m t with ⟨rm, t1, l1⟩
  cases rm with
  | error e => simp only [P.bind, hm]
  | ok a => simp [P.bind, P.pure, hm]

/-- Helper monad law: promise chaining is associative. -/
lemma P.bind_assoc {ε ρ α β γ : Type} (m : P ε ρ α) (f : α → P ε ρ β)
    (g : β → P ε ρ γ) :
    P.bind (P.bind m f) g = P.bind m (fun a => P.bind (f a) g) := by
  funext t
  rcases hm : m t with ⟨rm, t1, l1⟩
  cases rm with
  | error e => simp only [P.bind, hm]
  | ok a =>
    rcases hf : f a t1 with ⟨rf, t2, l2⟩
    cases rf with
    | error e => simp [P.bind, hm, hf]
    | ok b =>
      rcases hg : g b t2 with ⟨rg, t3, l3⟩
      simp [P.bind, hm, hf, hg, List.append_assoc]

/-- Helper: evaluating a chained promise whose head fulfils. -/
lemma P.bind_run_ok {ε ρ α β : Type} (m : P ε ρ α) (f : α → P ε ρ β)
    (t : Nat) (a : α) (t1 : Nat) (l1 : List (Nat × ε))
    (h : m t = ⟨.ok a, t1, l1⟩) :
    P.bind m f t = ⟨(f a t1).result, (f a t1).finish, l1 ++ (f a t1).log⟩ := by
  simp only [P.bind, h]

/-- Helper: evaluating a chained promise whose head rejects. -/
lemma P.bind_run_error {ε ρ α β : Type} (m : P ε ρ α) (f : α → P ε ρ β)
    (t : Nat) (e : ρ) (t1 : Nat) (l1 : List (Nat × ε))
    (h : m t = ⟨.error e, t1, l1⟩) :
    P.bind m f t = ⟨.error e, t1, l1⟩ := by
  simp only [P.bind, h]

/-- Helper: splitting `sequential`'s loop over a list concatenation — run
the prefix first, then the suffix, appending the result lists. -/
lemma seqLoop_append {ε ρ α : Type} (xs ys : List (Async ε ρ α)) :
    Async.seqLoop (xs ++ ys)
      = P.bind (Async.seqLoop xs)
          (fun as => P.bind (Async.seqLoop ys) (fun bs => P.pure (as ++ bs))) := by
  induction xs with
  | nil =>
    show Async.seqLoop ys = _
    rw [show Async.seqLoop ([] : List (Async ε ρ α)) = P.pure [] from rfl,
      P.pure_bind]
    exact (P.bind_pure _).symm
  | cons x xs ih =>
    show Async.seqLoop (x :: (xs ++ ys)) = _
    simp only [Async.seqLoop, ih, P.bind_assoc, P.pure_bind, List.cons_append]

/-- C9: if the producers before position `i` in `sequential` all resolve
and the producer at position `i` rejects when awaited, the combined
promise rejects with that same reason at that same time, carrying only
the side effects of positions `0..i` — the producers after position `i`
(the universally quantified `rest`) are never invoked: they contribute
nothing to the result, settle time, or side-effect log. -/
theorem c9_sequential_short_circuits_on_rejection {ε ρ α : Type}
    (pre rest : List (Async ε ρ α)) (bad : Async ε ρ α) (t : Nat)
    (rs : List α) (t1 : Nat) (l1 : List (Nat × ε))
    (e : ρ) (t2 : Nat) (l2 : List (Nat × ε))
    (hpre : Async.start (Async.sequential pre) t = ⟨.ok rs, t1, l1⟩)
    (hbad : bad () t1 = ⟨.error e, t2, l2⟩) :
    Async.start (Async.sequential (pre ++ bad :: rest)) t
      = ⟨.error e, t2, l1 ++ l2⟩ := by
  have hpre2 : Async.seqLoop pre t = ⟨.ok rs, t1, l1⟩ := hpre
  have hb : Async.seqLoop (bad :: rest) t1 = ⟨.error e, t2, l2⟩ :=
    P.bind_run_error (bad ()) _ t1 e t2 l2 hbad
  have hb2 : P.bind (Async.seqLoop (bad :: rest))
      (fun bs => P.pure (rs ++ bs)) t1 = ⟨.error e, t2, l2⟩ :=
    P.bind_run_error _ _ t1 e t2 l2 hb
  show Async.seqLoop (pre ++ bad :: rest) t = _
  rw [seqLoop_append, P.bind_run_ok _ _ t rs t1 l1 hpre2]
  simp [hb2]

/-- Witness for C9: with a first producer resolving to `1`, a second
producer rejecting with `"boom"`, and a third producer after it, the
started `sequential` rejects with `"boom"` and the third producer's
result never appears. -/
theorem c9_sequential_short_circuits_on_rejection_witness :
    Async.start (Async.sequential
        ([Async.of 1] ++ Async.ofPromise (fun t => ⟨.error "boom", t, []⟩)
          :: [Async.of 2] : List (Async Unit String Nat))) 0
      = ⟨.error "boom", 0, []⟩ :=
  c9_sequential_short_circuits_on_rejection
    [Async.of 1] [Async.of 2] (Async.ofPromise (fun t => ⟨.error "boom", t, []⟩))
    0 [1] 0 [] "boom" 0 [] rfl rfl
